import Mathlib

/-
Verification of the blog-platform backend's response-cache layer and
comment-thread builder.

Strings from the TypeScript source are embedded as `List Char` (named `Str`)
so that prefix/infix/sort reasoning can use list lemmas.  JavaScript string
operations map as follows:
  `s.startsWith(p)`   -> `p.isPrefixOf s`
  `s.includes(p)`     -> `p <:+: s` (infix)
  `a + ":" + b`       -> `a ++ colon :: b`
  `Object.keys(q).sort()` -> lexicographic sort of the association-list keys
-/

abbrev Str := List Char

def colon : Char := ':'

def qmark : Char := '?'

def anonymousStr : Str := "anonymous".toList

/-- Constants from src/constants/cache.ts (CACHE_CONFIG). -/
def TTL_DEFAULT : Nat := 5 * 60 * 1000

def TTL_POSTS_LIST : Nat := 5 * 60 * 1000

def TTL_POSTS_SINGLE : Nat := 10 * 60 * 1000

def MAX_SIZE : Nat := 1000

def CACHE_ENABLED : Bool := true

/-- HTTP methods relevant to the middleware dispatch. -/
inductive Method where
  | GET
  | POST
  | PUT
  | DELETE
deriving DecidableEq

/-- The request data consumed by `generateCacheKey` in src/middleware/cache.ts:
the HTTP method, `originalUrl`, `path`, the authenticated user id
(`req.user?.id`) and the parsed query object, embedded as an association
list of key/value pairs (Express query objects have distinct keys). -/
structure AuthRequest where
  method : Method
  originalUrl : Str
  path : Str
  userId : Option Str
  query : List (Str × Str)
deriving DecidableEq

/-- JavaScript `originalUrl.split('?')[0]`: the prefix before the first `?`. -/
def stripQuery (u : Str) : Str := u.takeWhile (fun c => !(c == qmark))

/-- Source: `const fullPath = originalUrl ? originalUrl.split('?')[0] : path;`
(an empty `originalUrl` is falsy and falls back to `req.path`). -/
def fullPathOf (req : AuthRequest) : Str :=
  match req.originalUrl with
  | [] => req.path
  | _ => stripQuery req.originalUrl

/-- Source: `Object.keys(query).sort()` — the query keys in ascending
lexicographic order. -/
def sortedQueryKeys (q : List (Str × Str)) : List Str :=
  List.insertionSort (· ≤ ·) (q.map Prod.fst)

/-- Source: `query[key]` for a key of the query object. -/
def queryValue (q : List (Str × Str)) (k : Str) : Str :=
  (q.lookup k).getD []

/-- JavaScript `Array.prototype.join(':')`. -/
def joinColon : List Str → Str
  | [] => []
  | [s] => s
  | s :: ss => s ++ colon :: joinColon ss

/-- src/middleware/cache.ts `generateCacheKey`:
`\x7bfullPath\x7d:\x7buserId\x7d:\x7bqueryString\x7d` where `userId` defaults to
`"anonymous"` and `queryString` joins the sorted `key:value` pairs with `:`. -/
def generateCacheKey (req : AuthRequest) : Str :=
  let userId := req.userId.getD anonymousStr
  let fullPath := fullPathOf req
  let queryString :=
    joinColon ((sortedQueryKeys req.query).map
      (fun k => k ++ colon :: queryValue req.query k))
  fullPath ++ colon :: userId ++ colon :: queryString

/-- One stored cache entry: the cached JSON payload and the TTL it was
stored with.  Expiry itself is not modelled: every read in this development
happens inside the TTL window. -/
structure CEntry (α : Type) where
  value : α
  ttl : Nat
deriving DecidableEq

/-- The in-process key-value store backing the middleware (the node-cache
instance), as a list of key/entry pairs with distinct keys maintained by
`set`. -/
structure Cache (α : Type) where
  entries : List (Str × CEntry α)
deriving DecidableEq

def Cache.empty {α : Type} : Cache α := ⟨[]⟩

/-- `cache.get(key)`: the stored payload, if the key is present. -/
def Cache.get {α : Type} (c : Cache α) (k : Str) : Option α :=
  (c.entries.lookup k).map CEntry.value

/-- `cache.set(key, data, ttl)`: stores the value, replacing any prior entry
for that key. -/
def Cache.set {α : Type} (c : Cache α) (k : Str) (v : α) (ttl : Nat) : Cache α :=
  ⟨(k, ⟨v, ttl⟩) :: c.entries.filter (fun e => !(e.1 == k))⟩

/-- `cache.keys().forEach(key => if p(key) cache.del(key))`: removes every
entry whose key satisfies `p`. -/
def Cache.delMatching {α : Type} (c : Cache α) (p : Str → Bool) : Cache α :=
  ⟨c.entries.filter (fun e => !(p e.1))⟩

def apiPostsColon : Str := "/api/posts:".toList

def apiPostsSlash : Str := "/api/posts/".toList

def myPostsStart : Str := "/api/posts/my-posts:".toList

/-- src/middleware/cache.ts `invalidateCache.invalidateListCaches`: deletes
keys that start with `/api/posts:` without containing `/api/posts/`, plus
keys that start with `/api/posts/my-posts:`. -/
def invalidateListCaches {α : Type} (c : Cache α) : Cache α :=
  c.delMatching (fun k =>
    (apiPostsColon.isPrefixOf k && !(decide (apiPostsSlash <:+: k)))
      || myPostsStart.isPrefixOf k)

/-- src/middleware/cache.ts `invalidateCache.invalidatePostCache`: deletes
every key containing `/api/posts/` followed by the slug. -/
def invalidatePostCache {α : Type} (slug : Str) (c : Cache α) : Cache α :=
  c.delMatching (fun k => decide ((apiPostsSlash ++ slug) <:+: k))

/-- src/middleware/cache.ts `invalidateCache.invalidateUserCaches`: deletes
every key containing `:` followed by the user id followed by `:`. -/
def invalidateUserCaches {α : Type} (userId : Str) (c : Cache α) : Cache α :=
  c.delMatching (fun k => decide ((colon :: userId ++ [colon]) <:+: k))

/-- An HTTP response: the status set on `res` and the body handed to
`res.json`. -/
structure HttpResponse (α : Type) where
  status : Nat
  body : α
deriving DecidableEq

/-- Result of running the cache middleware around a GET handler: the
response sent, the cache afterwards, and the application state (database)
afterwards. -/
structure MwResult (α σ : Type) where
  response : HttpResponse α
  cache : Cache α
  state : σ
deriving DecidableEq

/-- src/middleware/cache.ts `cacheMiddleware(ttl)`: non-GET requests (or a
disabled cache) pass straight through to the handler; otherwise a present
entry short-circuits the handler (`res.json(cachedData)`, a 200 with the
stored payload), and on a miss the handler runs with `res.json` overridden
to store the body under the derived key before sending it.  The override
caches the body of whatever response the handler sends, with no status
check.  Store operations are total here; the variant with the fallible
node-cache store is `cacheMiddlewareNC` below. -/
def cacheMiddleware {α σ : Type} (ttl : Nat) (req : AuthRequest)
    (handler : σ → HttpResponse α × σ) (c : Cache α) (db : σ) : MwResult α σ :=
  if req.method ≠ Method.GET ∨ CACHE_ENABLED = false then
    let r := handler db
    ⟨r.1, c, r.2⟩
  else
    let cacheKey := generateCacheKey req
    match c.get cacheKey with
    | some cachedData => ⟨⟨200, cachedData⟩, c, db⟩
    | none =>
      let r := handler db
      let cacheTTL := if ttl ≠ 0 then ttl else TTL_DEFAULT
      ⟨r.1, c.set cacheKey r.1.body cacheTTL, r.2⟩

/-- Errors the node-cache store can signal.  The dependency raises
ECACHEFULL from `set` when `maxKeys` entries are already stored, instead of
evicting; this is the only store error reachable in this development. -/
inductive CacheError where
  | cacheFull
deriving DecidableEq

/-- The node-cache instance as configured in src/middleware/cache.ts:
`new NodeCache(\x7b stdTTL, maxKeys: CACHE_CONFIG.MAX_SIZE, checkperiod \x7d)`.
Modelled from the dependency's documented behaviour, since node-cache is an
external library: `get` is total, and `set` refuses with ECACHEFULL when
the key count has reached `maxKeys`. -/
structure NodeCacheStore (α : Type) where
  maxKeys : Nat
  entries : List (Str × α)
deriving DecidableEq

def NodeCacheStore.get {α : Type} (s : NodeCacheStore α) (k : Str) : Option α :=
  s.entries.lookup k

def NodeCacheStore.set {α : Type} (s : NodeCacheStore α) (k : Str) (v : α) :
    Except CacheError (NodeCacheStore α) :=
  if s.maxKeys ≤ s.entries.length then .error .cacheFull
  else .ok ⟨s.maxKeys, (k, v) :: s.entries.filter (fun e => !(e.1 == k))⟩

/-- src/middleware/cache.ts `cacheMiddleware(ttl)` again, this time over the
fallible node-cache store.  The middleware body has no try/catch: an error
raised by `cache.set` inside the `res.json` override propagates out of the
request instead of being absorbed, which is what `Except.error` records. -/
def cacheMiddlewareNC {α σ : Type} (ttl : Nat) (req : AuthRequest)
    (handler : σ → HttpResponse α × σ) (s : NodeCacheStore α) (db : σ) :
    Except CacheError (HttpResponse α × NodeCacheStore α × σ) :=
  if req.method ≠ Method.GET ∨ CACHE_ENABLED = false then
    let r := handler db
    .ok (r.1, s, r.2)
  else
    let cacheKey := generateCacheKey req
    match s.get cacheKey with
    | some cachedData => .ok (⟨200, cachedData⟩, s, db)
    | none =>
      let r := handler db
      match s.set cacheKey r.1.body with
      | .error e => .error e
      | .ok s2 => .ok (r.1, s2, r.2)

/-- A row of the `posts` table, restricted to the columns the verified
routes read. -/
structure Post where
  id : Str
  slug : Str
  authorId : Str
  published : Bool
  viewCount : Nat
  createdAt : Nat
deriving DecidableEq

/-- A row of the `comments` table. -/
structure Comment where
  id : Str
  content : Str
  postId : Str
  userId : Str
  parentId : Option Str
  createdAt : Nat
deriving DecidableEq

structure CommentLike where
  userId : Str
  commentId : Str
deriving DecidableEq

structure PostLike where
  userId : Str
  postId : Str
deriving DecidableEq

structure SavedPost where
  userId : Str
  postId : Str
  createdAt : Nat
deriving DecidableEq

/-- The relational store, as lists of rows. -/
structure DB where
  posts : List Post
  comments : List Comment
  commentLikes : List CommentLike
  postLikes : List PostLike
  savedPosts : List SavedPost
deriving DecidableEq

/-- `prisma.post.findUnique(\x7b where: \x7b id \x7d \x7d)`. -/
def findPostById (db : DB) (postId : Str) : Option Post :=
  db.posts.find? (fun p => p.id == postId)

/-- `prisma.comment.findUnique(\x7b where: \x7b id \x7d \x7d)`. -/
def findComment (comments : List Comment) (commentId : Str) : Option Comment :=
  comments.find? (fun c => c.id == commentId)

/-- `prisma.postLike.count(\x7b where: \x7b postId \x7d \x7d)`. -/
def postLikeCount (db : DB) (postId : Str) : Nat :=
  (db.postLikes.filter (fun l => l.postId == postId)).length

/-- `prisma.commentLike.count(\x7b where: \x7b commentId \x7d \x7d)`. -/
def commentLikeCount (db : DB) (commentId : Str) : Nat :=
  (db.commentLikes.filter (fun l => l.commentId == commentId)).length

/-- `orderBy: \x7b createdAt: 'asc' \x7d` on a comment query. -/
def sortByCreatedAt (l : List Comment) : List Comment :=
  List.insertionSort (fun a b => a.createdAt ≤ b.createdAt) l

instance : IsTotal Comment (fun a b => a.createdAt ≤ b.createdAt) :=
  ⟨fun a b => Nat.le_total a.createdAt b.createdAt⟩

instance : IsTrans Comment (fun a b => a.createdAt ≤ b.createdAt) :=
  ⟨fun _ _ _ hab hbc => Nat.le_trans hab hbc⟩

/-- src/routes/posts.ts `getThreadDepth(commentId, depth = 0)`: walks the
parent chain, checking `depth >= 5` before each lookup, so the walk is
bounded even on inconsistent data (parent-chain cycles).  The source guard
`if (!comment || !comment.parentId) return depth` is the `none` branch of
the `Option.bind`. -/
def getThreadDepth (comments : List Comment) (commentId : Str) (depth : Nat) : Nat :=
  if depth ≥ 5 then depth
  else
    match (findComment comments commentId).bind Comment.parentId with
    | none => depth
    | some p => getThreadDepth comments p (depth + 1)
termination_by 5 - depth
decreasing_by omega

/-- Instrumented copy of `getThreadDepth` that also counts the recursive
calls performed, used to state the resource bound of the walk. -/
def getThreadDepthSteps (comments : List Comment) (commentId : Str) (depth : Nat) :
    Nat × Nat :=
  if depth ≥ 5 then (depth, 0)
  else
    match (findComment comments commentId).bind Comment.parentId with
    | none => (depth, 0)
    | some p =>
      ((getThreadDepthSteps comments p (depth + 1)).1,
        (getThreadDepthSteps comments p (depth + 1)).2 + 1)
termination_by 5 - depth
decreasing_by omega

def postNotFoundMsg : Str := "Post not found".toList

def commentNotFoundMsg : Str := "Comment not found".toList

def maxDepthMsg : Str := "Maximum thread depth of 5 levels reached".toList

/-- Outcome of the reply route, tagged by the response it sends. -/
inductive ReplyOutcome where
  | notFound (msg : Str)
  | validationFailed (msg : Str)
  | created (c : Comment)
deriving DecidableEq

/-- src/routes/posts.ts `POST /:postId/comments/:commentId/reply` for an
authenticated user: 404 if the post is missing, 404 if the parent comment
is missing or belongs to a different post, 400 with the fixed message if
`getThreadDepth(commentId) >= 5`, and otherwise the reply row is created
with `parentId := commentId`.  The database-generated id and clock are the
`newId` and `now` arguments; the cache invalidation the route performs is
covered by the cache development above. -/
def createReply (db : DB) (postId commentId userId content : Str)
    (newId : Str) (now : Nat) : ReplyOutcome × DB :=
  match findPostById db postId with
  | none => (.notFound postNotFoundMsg, db)
  | some _ =>
    match findComment db.comments commentId with
    | none => (.notFound commentNotFoundMsg, db)
    | some parentComment =>
      if parentComment.postId ≠ postId then (.notFound commentNotFoundMsg, db)
      else if getThreadDepth db.comments commentId 0 ≥ 5 then
        (.validationFailed maxDepthMsg, db)
      else
        let reply : Comment :=
          ⟨newId, content, postId, userId, some commentId, now⟩
        (.created reply, { db with comments := db.comments ++ [reply] })

/-- The post fields the single-post response carries (tags/category/author
projections omitted; they are constant joins that play no role in the
claims). -/
structure PostView where
  id : Str
  slug : Str
  published : Bool
  viewCount : Nat
  likeCount : Nat
deriving DecidableEq

/-- Body of a single-post GET response: the post payload or the error
object. -/
inductive PostResponse where
  | found (p : PostView)
  | error (msg : Str)
deriving DecidableEq

/-- `prisma.post.update` incrementing `viewCount` for the given id. -/
def incViewCount (db : DB) (postId : Str) : DB :=
  { db with
    posts := db.posts.map (fun p =>
      if p.id == postId then { p with viewCount := p.viewCount + 1 } else p) }

/-- src/routes/posts.ts `GET /:slug` handler: finds the published post by
slug (404 otherwise), counts likes, and — the post being published —
increments the stored view count and reports `viewCount + 1` in the
response. -/
def getPostBySlug (slug : Str) (db : DB) : HttpResponse PostResponse × DB :=
  match db.posts.find? (fun p => p.slug == slug && p.published) with
  | none => (⟨404, .error postNotFoundMsg⟩, db)
  | some post =>
    let likeCount := postLikeCount db post.id
    if post.published then
      (⟨200, .found ⟨post.id, post.slug, post.published, post.viewCount + 1, likeCount⟩⟩,
        incViewCount db post.id)
    else
      (⟨200, .found ⟨post.id, post.slug, post.published, post.viewCount, likeCount⟩⟩, db)

/-- One entry of the saved-posts listing: the saved post with its like
count and the `savedAt` timestamp of the save row. -/
structure SavedPostView where
  id : Str
  slug : Str
  viewCount : Nat
  likeCount : Nat
  savedAt : Nat
deriving DecidableEq

/-- Body of the `GET /saved` response: the page of saved posts and the
total count (the remaining pagination arithmetic plays no role in the
claims). -/
structure SavedResponse where
  posts : List SavedPostView
  total : Nat
deriving DecidableEq

/-- Default pagination of the listing routes:
`page = parseInt(...) || 1`, `limit = parseInt(...) || 10`; the requests in
this development carry no pagination parameters, so the defaults apply. -/
def defaultSkip : Nat := (1 - 1) * 10

def defaultTake : Nat := 10

/-- src/routes/posts.ts `GET /saved` handler for an authenticated user:
the user's `savedPost` rows ordered by `createdAt` descending, paginated,
each joined with its post and like count.  The relational `include` is a
lookup here; saved rows whose post is absent are dropped (the foreign key
rules that out in the real store). -/
def getSavedPosts (userId : Str) (db : DB) : HttpResponse SavedResponse × DB :=
  let saved := db.savedPosts.filter (fun s => s.userId == userId)
  let sorted := List.insertionSort (fun a b : SavedPost => b.createdAt ≤ a.createdAt) saved
  let page := (sorted.drop defaultSkip).take defaultTake
  let views := page.filterMap (fun s =>
    (db.posts.find? (fun p => p.id == s.postId)).map (fun post =>
      ({ id := post.id, slug := post.slug, viewCount := post.viewCount,
         likeCount := postLikeCount db post.id, savedAt := s.createdAt } : SavedPostView)))
  let total := (db.savedPosts.filter (fun s => s.userId == userId)).length
  (⟨200, ⟨views, total⟩⟩, db)

def postSavedMsg : Str := "Post saved successfully".toList

def alreadySavedMsg : Str := "You have already saved this post".toList

/-- src/routes/posts.ts `POST /:id/save` for an authenticated user: 404 if
the post is missing, 400 if already saved, otherwise the save row is
created and the route runs `invalidateCache.invalidateListCaches()` and
`invalidateCache.invalidatePostCache(post.slug)` — and no other
invalidation. -/
def savePost {α : Type} (userId postId : Str) (now : Nat) (db : DB) (c : Cache α) :
    HttpResponse Str × DB × Cache α :=
  match findPostById db postId with
  | none => (⟨404, postNotFoundMsg⟩, db, c)
  | some post =>
    if (db.savedPosts.find? (fun s => s.userId == userId && s.postId == postId)).isSome then
      (⟨400, alreadySavedMsg⟩, db, c)
    else
      let db2 := { db with savedPosts := db.savedPosts ++ [⟨userId, postId, now⟩] }
      let c2 := invalidatePostCache post.slug (invalidateListCaches c)
      (⟨201, postSavedMsg⟩, db2, c2)

/-- A node of the assembled comment tree: the comment's own columns, its
like count, and its recursively built children. -/
structure CommentNode where
  id : Str
  content : Str
  postId : Str
  userId : Str
  parentId : Option Str
  createdAt : Nat
  likeCount : Nat
  replies : List CommentNode

/-- src/routes/posts.ts `getNestedReplies(parentId, currentDepth)`: stops
at depth 5, otherwise fetches the direct children of `parentId` belonging
to the post in ascending `createdAt` order and recursively builds each
child's subtree at depth + 1. -/
def getNestedReplies (db : DB) (postId : Str) (parentId : Str)
    (currentDepth : Nat) : List CommentNode :=
  if currentDepth ≥ 5 then []
  else
    let replies := sortByCreatedAt (db.comments.filter
      (fun c => c.parentId == some parentId && c.postId == postId))
    replies.map (fun r =>
      { id := r.id, content := r.content, postId := r.postId, userId := r.userId,
        parentId := r.parentId, createdAt := r.createdAt,
        likeCount := commentLikeCount db r.id,
        replies := getNestedReplies db postId r.id (currentDepth + 1) })
termination_by 5 - currentDepth
decreasing_by omega

/-- src/routes/posts.ts `GET /:postId/comments`: 404 if the post is
missing; otherwise the top-level comments of the post (no parent) in
ascending `createdAt` order, each with its like count and its nested
replies from `getNestedReplies(comment.id, 0)`. -/
def getPostComments (db : DB) (postId : Str) :
    Except Str (List CommentNode) :=
  match findPostById db postId with
  | none => .error postNotFoundMsg
  | some _ =>
    let comments := sortByCreatedAt (db.comments.filter
      (fun c => c.parentId == none && c.postId == postId))
    .ok (comments.map (fun c =>
      { id := c.id, content := c.content, postId := c.postId, userId := c.userId,
        parentId := c.parentId, createdAt := c.createdAt,
        likeCount := commentLikeCount db c.id,
        replies := getNestedReplies db postId c.id 0 }))

/-- Specification-level depth of a comment: `DepthIs comments cid d` holds
when the parent chain from the comment `cid` reaches a root in exactly `d`
steps, each link resolved through `findComment`. -/
inductive DepthIs (comments : List Comment) : Str → Nat → Prop where
  | root (cid : Str) (c : Comment) :
      findComment comments cid = some c → c.parentId = none →
      DepthIs comments cid 0
  | step (cid : Str) (c : Comment) (p : Str) (n : Nat) :
      findComment comments cid = some c → c.parentId = some p →
      DepthIs comments p n → DepthIs comments cid (n + 1)

/-- Siblings appear in ascending `createdAt` order at every level of the
forest. -/
inductive AllSorted : List CommentNode → Prop where
  | mk (l : List CommentNode) :
      l.Pairwise (fun a b => a.createdAt ≤ b.createdAt) →
      (∀ n ∈ l, AllSorted n.replies) → AllSorted l

/-- The requester identity segment of the cache key:
`user?.id || 'anonymous'`. -/
def effUserId (req : AuthRequest) : Str := req.userId.getD anonymousStr

/-- The normalized query parameters of a request: the key/value pairs in
ascending key order, as they enter the cache key. -/
def normQuery (req : AuthRequest) : List (Str × Str) :=
  (sortedQueryKeys req.query).map (fun k => (k, queryValue req.query k))

/-- A string containing no `:` separator. -/
def colonFree (s : Str) : Prop := colon ∉ s

/-- All components of the request that enter the cache key are `:`-free. -/
def ReqColonFree (req : AuthRequest) : Prop :=
  colonFree (fullPathOf req) ∧ colonFree (effUserId req) ∧
    ∀ p ∈ req.query, colonFree p.1 ∧ colonFree p.2

/-- Flattens key/value pairs into alternating segments. -/
def flatPairs : List (Str × Str) → List Str
  | [] => []
  | p :: ps => p.1 :: p.2 :: flatPairs ps

/-- The segments contributed to the cache key by the query string: a lone
empty segment when there are no parameters, and the alternating sorted
keys and values otherwise. -/
def tailSegs (req : AuthRequest) : List Str :=
  if sortedQueryKeys req.query = [] then [[]]
  else flatPairs (normQuery req)

/-- The full segment decomposition of a cache key. -/
def keySegs (req : AuthRequest) : List Str :=
  fullPathOf req :: effUserId req :: tailSegs req

/-- Concrete post used by the scenario inputs. -/
def w1Post : Post :=
  { id := "p1".toList, slug := "hello-world".toList, authorId := "u2".toList,
    published := true, viewCount := 0, createdAt := 0 }

/-- Concrete root comment on `w1Post`. -/
def w1Root : Comment :=
  { id := "c1".toList, content := "hi".toList, postId := "p1".toList,
    userId := "u1".toList, parentId := none, createdAt := 1 }

def w1DB : DB := ⟨[w1Post], [w1Root], [], [], []⟩

/-- The comment forest `GET /:postId/comments` assembles over `w1DB`. -/
def w1Tree : List CommentNode :=
  [{ id := "c1".toList, content := "hi".toList, postId := "p1".toList,
     userId := "u1".toList, parentId := none, createdAt := 1, likeCount := 0,
     replies := [] }]

/-- Authenticated `GET /api/posts/saved` request of user `u1`. -/
def c2SavedReq : AuthRequest :=
  { method := .GET, originalUrl := "/api/posts/saved".toList,
    path := "/api/posts/saved".toList, userId := some ("u1".toList), query := [] }

def c2DB : DB := ⟨[w1Post], [], [], [], []⟩

/-- First read: `GET /saved` for `u1` on a cold cache (miss, stores the
empty listing). -/
def c2Read1 : MwResult SavedResponse DB :=
  cacheMiddleware TTL_POSTS_LIST c2SavedReq (getSavedPosts ("u1".toList))
    Cache.empty c2DB

/-- The mutation: `POST /api/posts/p1/save` by `u1`, with the route's two
invalidation calls. -/
def c2Save : HttpResponse Str × DB × Cache SavedResponse :=
  savePost ("u1".toList) ("p1".toList) 5 c2Read1.state c2Read1.cache

/-- Second read: `GET /saved` for `u1` after the save. -/
def c2Read2 : MwResult SavedResponse DB :=
  cacheMiddleware TTL_POSTS_LIST c2SavedReq (getSavedPosts ("u1".toList))
    c2Save.2.2 c2Save.2.1

/-- Anonymous `GET /api/posts/missing-post` request. -/
def c4Req : AuthRequest :=
  { method := .GET, originalUrl := "/api/posts/missing-post".toList,
    path := "/api/posts/missing-post".toList, userId := none, query := [] }

def emptyDB : DB := ⟨[], [], [], [], []⟩

/-- The single-post GET for a slug that does not exist, run on an empty
cache: the handler responds 404. -/
def c4Run : MwResult PostResponse DB :=
  cacheMiddleware TTL_POSTS_SINGLE c4Req (getPostBySlug ("missing-post".toList))
    Cache.empty emptyDB

def aChar : Char := 'a'

/-- A node-cache store at its configured capacity: `MAX_SIZE` distinct keys
already present. -/
def c3FullStore : NodeCacheStore Str :=
  ⟨MAX_SIZE, (List.range MAX_SIZE).map (fun i => (List.replicate i aChar, []))⟩

/-- Anonymous `GET /api/posts` request. -/
def c3Req : AuthRequest :=
  { method := .GET, originalUrl := "/api/posts".toList,
    path := "/api/posts".toList, userId := none, query := [] }

def c3Handler : Nat → HttpResponse Str × Nat :=
  fun n => (⟨200, "live-response".toList⟩, n)

/-- Request with one parameter whose value contains colons. -/
def c6ReqA : AuthRequest :=
  { method := .GET, originalUrl := "/api/posts".toList,
    path := "/api/posts".toList, userId := none,
    query := [("a".toList, "b:c:v".toList)] }

/-- Request with two colon-free parameters; collides with `c6ReqA`. -/
def c6ReqB : AuthRequest :=
  { method := .GET, originalUrl := "/api/posts".toList,
    path := "/api/posts".toList, userId := none,
    query := [("a".toList, "b".toList), ("c".toList, "v".toList)] }

/-- Colon-free GET request used as a witness input. -/
def c6ReqW1 : AuthRequest :=
  { method := .GET, originalUrl := "/api/posts".toList,
    path := "/api/posts".toList, userId := some ("u1".toList),
    query := [("page".toList, "2".toList)] }

/-- Same key material as `c6ReqW1` but a different method. -/
def c6ReqW2 : AuthRequest :=
  { method := .POST, originalUrl := "/api/posts".toList,
    path := "/api/posts".toList, userId := some ("u1".toList),
    query := [("page".toList, "2".toList)] }

/-- `GET /api/posts?page=2&limit=5`. -/
def c5ReqA : AuthRequest :=
  { method := .GET, originalUrl := "/api/posts?page=2&limit=5".toList,
    path := "/api/posts".toList, userId := none,
    query := [("page".toList, "2".toList), ("limit".toList, "5".toList)] }

/-- `GET /api/posts?limit=5&page=2`: the same parameters, other order. -/
def c5ReqB : AuthRequest :=
  { method := .GET, originalUrl := "/api/posts?limit=5&page=2".toList,
    path := "/api/posts".toList, userId := none,
    query := [("limit".toList, "5".toList), ("page".toList, "2".toList)] }

/-- Anonymous `GET /api/posts/hello-world` request. -/
def c10Req : AuthRequest :=
  { method := .GET, originalUrl := "/api/posts/hello-world".toList,
    path := "/api/posts/hello-world".toList, userId := none, query := [] }

/-- Non-GET request used by the pass-through witness. -/
def c9Req : AuthRequest :=
  { method := .POST, originalUrl := "/api/posts".toList,
    path := "/api/posts".toList, userId := some ("u1".toList), query := [] }

theorem Cache.get_set_self {α : Type} (c : Cache α) (k : Str) (v : α) (ttl : Nat) :
    (c.set k v ttl).get k = some v := by
  simp [Cache.get, Cache.set, List.lookup]

/-- C9: a non-GET request passes straight through the cache middleware: the
response is exactly the live handler response — independent of the cache
contents, so no entry is read — and the cache comes back unchanged, so no
entry is stored. -/
theorem cacheMiddleware_nonGET_passthrough {α σ : Type} (ttl : Nat)
    (req : AuthRequest) (handler : σ → HttpResponse α × σ) (c : Cache α) (db : σ)
    (h : req.method ≠ Method.GET) :
    cacheMiddleware ttl req handler c db = ⟨(handler db).1, c, (handler db).2⟩ := by
  simp [cacheMiddleware, h]

theorem cacheMiddleware_nonGET_passthrough_witness :
    cacheMiddleware 7 c9Req (fun n : Nat => (⟨201, postSavedMsg⟩, n + 1))
        Cache.empty 0
      = ⟨⟨201, postSavedMsg⟩, Cache.empty, 1⟩ :=
  cacheMiddleware_nonGET_passthrough 7 c9Req _ Cache.empty 0 (by decide)

/-- C4 (amended): on a GET cache miss the middleware stores the body of
whatever response the handler sends — the `res.json` override carries no
status check — so failure responses are cached exactly like successes. -/
theorem cacheMiddleware_caches_any_status {α σ : Type} (ttl : Nat)
    (req : AuthRequest) (handler : σ → HttpResponse α × σ) (c : Cache α) (db : σ)
    (hm : req.method = Method.GET)
    (hmiss : c.get (generateCacheKey req) = none) :
    (cacheMiddleware ttl req handler c db).cache.get (generateCacheKey req)
      = some (handler db).1.body := by
  simp [cacheMiddleware, hm, CACHE_ENABLED, hmiss, Cache.get_set_self]

theorem cacheMiddleware_caches_any_status_witness :
    (c4Run.cache.get (generateCacheKey c4Req)
      = some (getPostBySlug ("missing-post".toList) emptyDB).1.body) :=
  cacheMiddleware_caches_any_status TTL_POSTS_SINGLE c4Req
    (getPostBySlug ("missing-post".toList)) Cache.empty emptyDB (by decide) (by decide)

/-- C4 (counterexample): the single-post GET for an absent slug responds
404 Not Found, yet the middleware inserts that error body as a cache entry
under the request's key — refuting the claim that failure responses are
never cached. -/
theorem cacheMiddleware_caches_404_counterexample :
    c4Run.response.status = 404
    ∧ c4Run.cache.get (generateCacheKey c4Req)
        = some (PostResponse.error postNotFoundMsg) := by
  decide

/-- C10: for the single-post GET, a cache hit returns the stored payload
verbatim with the database untouched (no view-count increment), and hence
a miss-then-hit pair of reads of the same request returns the same body —
in particular the same `viewCount` — with no second database change. -/
theorem cacheHit_preserves_viewCount (slug : Str) (req : AuthRequest)
    (c : Cache PostResponse) (db : DB)
    (hm : req.method = Method.GET) :
    (∀ d, c.get (generateCacheKey req) = some d →
      cacheMiddleware TTL_POSTS_SINGLE req (getPostBySlug slug) c db
        = ⟨⟨200, d⟩, c, db⟩)
    ∧ (c.get (generateCacheKey req) = none →
      (cacheMiddleware TTL_POSTS_SINGLE req (getPostBySlug slug)
          (cacheMiddleware TTL_POSTS_SINGLE req (getPostBySlug slug) c db).cache
          (cacheMiddleware TTL_POSTS_SINGLE req (getPostBySlug slug) c db).state).response.body
        = (cacheMiddleware TTL_POSTS_SINGLE req (getPostBySlug slug) c db).response.body
      ∧ (cacheMiddleware TTL_POSTS_SINGLE req (getPostBySlug slug)
          (cacheMiddleware TTL_POSTS_SINGLE req (getPostBySlug slug) c db).cache
          (cacheMiddleware TTL_POSTS_SINGLE req (getPostBySlug slug) c db).state).state
        = (cacheMiddleware TTL_POSTS_SINGLE req (getPostBySlug slug) c db).state) := by
  constructor
  · intro d hd
    simp [cacheMiddleware, hm, CACHE_ENABLED, hd]
  · intro hmiss
    have h1 : cacheMiddleware TTL_POSTS_SINGLE req (getPostBySlug slug) c db
        = ⟨(getPostBySlug slug db).1,
            c.set (generateCacheKey req) (getPostBySlug slug db).1.body TTL_POSTS_SINGLE,
            (getPostBySlug slug db).2⟩ := by
      simp [cacheMiddleware, hm, CACHE_ENABLED, hmiss, TTL_POSTS_SINGLE]
    rw [h1]
    simp [cacheMiddleware, hm, CACHE_ENABLED, Cache.get_set_self]

theorem cacheHit_preserves_viewCount_witness :
    (∀ d, (Cache.empty : Cache PostResponse).get (generateCacheKey c10Req) = some d →
      cacheMiddleware TTL_POSTS_SINGLE c10Req (getPostBySlug ("hello-world".toList))
          Cache.empty w1DB = ⟨⟨200, d⟩, Cache.empty, w1DB⟩)
    ∧ ((Cache.empty : Cache PostResponse).get (generateCacheKey c10Req) = none →
      (cacheMiddleware TTL_POSTS_SINGLE c10Req (getPostBySlug ("hello-world".toList))
          (cacheMiddleware TTL_POSTS_SINGLE c10Req (getPostBySlug ("hello-world".toList))
            Cache.empty w1DB).cache
          (cacheMiddleware TTL_POSTS_SINGLE c10Req (getPostBySlug ("hello-world".toList))
            Cache.empty w1DB).state).response.body
        = (cacheMiddleware TTL_POSTS_SINGLE c10Req (getPostBySlug ("hello-world".toList))
            Cache.empty w1DB).response.body
      ∧ (cacheMiddleware TTL_POSTS_SINGLE c10Req (getPostBySlug ("hello-world".toList))
          (cacheMiddleware TTL_POSTS_SINGLE c10Req (getPostBySlug ("hello-world".toList))
            Cache.empty w1DB).cache
          (cacheMiddleware TTL_POSTS_SINGLE c10Req (getPostBySlug ("hello-world".toList))
            Cache.empty w1DB).state).state
        = (cacheMiddleware TTL_POSTS_SINGLE c10Req (getPostBySlug ("hello-world".toList))
            Cache.empty w1DB).state) :=
  cacheHit_preserves_viewCount ("hello-world".toList) c10Req Cache.empty w1DB (by decide)


set_option maxRecDepth 10000 in
/-- C3 (counterexample): with the store at its configured maximum entry
count, a GET miss reaches `cache.set`, node-cache raises ECACHEFULL instead
of evicting, and — the middleware having no try/catch — the request itself
fails instead of falling through to live computation. -/
theorem cacheMiddlewareNC_full_store_fails :
    cacheMiddlewareNC TTL_POSTS_LIST c3Req c3Handler c3FullStore 0
      = Except.error CacheError.cacheFull := by
  rfl

/-- C3 (amended): the middleware absorbs no store error; a request is
guaranteed not to fail only when `cache.set` cannot signal ECACHEFULL,
i.e. while the store holds fewer than `maxKeys` entries. -/
theorem cacheMiddlewareNC_ok_below_capacity {α σ : Type} (ttl : Nat)
    (req : AuthRequest) (handler : σ → HttpResponse α × σ)
    (s : NodeCacheStore α) (db : σ)
    (h : s.entries.length < s.maxKeys) :
    ∃ out, cacheMiddlewareNC ttl req handler s db = Except.ok out := by
  unfold cacheMiddlewareNC
  split
  · exact ⟨_, rfl⟩
  · have hs : s.set (generateCacheKey req) (handler db).1.body
        = .ok ⟨s.maxKeys, (generateCacheKey req, (handler db).1.body)
            :: s.entries.filter (fun e => !(e.1 == generateCacheKey req))⟩ := by
      unfold NodeCacheStore.set
      rw [if_neg (by omega)]
    cases hg : s.get (generateCacheKey req) with
    | some d => simp only [hg]; exact ⟨_, rfl⟩
    | none => simp only [hg, hs]; exact ⟨_, rfl⟩

theorem cacheMiddlewareNC_ok_below_capacity_witness :
    ∃ out, cacheMiddlewareNC TTL_POSTS_LIST c3Req c3Handler
        (⟨MAX_SIZE, []⟩ : NodeCacheStore Str) 0 = Except.ok out :=
  cacheMiddlewareNC_ok_below_capacity TTL_POSTS_LIST c3Req c3Handler
    ⟨MAX_SIZE, []⟩ 0 (by decide)

theorem getThreadDepth_le_max (comments : List Comment) (cid : Str) (depth : Nat) :
    getThreadDepth comments cid depth ≤ max depth 5 := by
  induction cid, depth using getThreadDepth.induct comments with
  | case1 cid depth h => rw [getThreadDepth, if_pos h]; omega
  | case2 cid depth h hfind =>
    rw [getThreadDepth, if_neg h, hfind]
    exact Nat.le_max_left depth 5
  | case3 cid depth h p hfind ih =>
    rw [getThreadDepth, if_neg h, hfind]
    show getThreadDepth comments p (depth + 1) ≤ max depth 5
    omega

theorem getThreadDepthSteps_fst (comments : List Comment) (cid : Str) (depth : Nat) :
    (getThreadDepthSteps comments cid depth).1 = getThreadDepth comments cid depth := by
  induction cid, depth using getThreadDepthSteps.induct comments with
  | case1 cid depth h => rw [getThreadDepthSteps, getThreadDepth, if_pos h, if_pos h]
  | case2 cid depth h hfind =>
    rw [getThreadDepthSteps, getThreadDepth, if_neg h, if_neg h, hfind]
  | case3 cid depth h p hfind ih =>
    rw [getThreadDepthSteps, getThreadDepth, if_neg h, if_neg h, hfind]
    show ((getThreadDepthSteps comments p (depth + 1)).1,
        (getThreadDepthSteps comments p (depth + 1)).2 + 1).1
      = getThreadDepth comments p (depth + 1)
    exact ih

theorem getThreadDepthSteps_snd_le (comments : List Comment) (cid : Str) (depth : Nat) :
    (getThreadDepthSteps comments cid depth).2 ≤ 5 - depth := by
  induction cid, depth using getThreadDepthSteps.induct comments with
  | case1 cid depth h => rw [getThreadDepthSteps, if_pos h]; omega
  | case2 cid depth h hfind =>
    rw [getThreadDepthSteps, if_neg h, hfind]
    show (0 : Nat) ≤ 5 - depth
    omega
  | case3 cid depth h p hfind ih =>
    rw [getThreadDepthSteps, if_neg h, hfind]
    show (getThreadDepthSteps comments p (depth + 1)).2 + 1 ≤ 5 - depth
    omega

/-- C8: the write-path depth walk is total by construction (its recursion
is on the bound `5 - depth`, the counter being checked before each parent
lookup), and for every comment store — cyclic parent chains included — the
walk from depth 0 performs at most 5 recursive steps and returns a value of
at most 5.  `getThreadDepthSteps` is the instrumented copy of the walk
whose second component counts the recursive calls. -/
theorem getThreadDepth_terminates_bounded (comments : List Comment) (cid : Str) :
    getThreadDepth comments cid 0 ≤ 5
    ∧ (getThreadDepthSteps comments cid 0).2 ≤ 5
    ∧ (getThreadDepthSteps comments cid 0).1 = getThreadDepth comments cid 0 := by
  refine ⟨?_, ?_, getThreadDepthSteps_fst comments cid 0⟩
  · have := getThreadDepth_le_max comments cid 0
    omega
  · have := getThreadDepthSteps_snd_le comments cid 0
    omega

theorem findComment_append_of_some {comments : List Comment} {cid : Str}
    {c : Comment} (h : findComment comments cid = some c) (l : List Comment) :
    findComment (comments ++ l) cid = some c := by
  unfold findComment at h ⊢
  rw [List.find?_append, h]
  rfl

theorem DepthIs.append {comments : List Comment} {cid : Str} {d : Nat}
    (h : DepthIs comments cid d) (l : List Comment) :
    DepthIs (comments ++ l) cid d := by
  induction h with
  | root cid c hf hp => exact .root cid c (findComment_append_of_some hf l) hp
  | step cid c p n hf hp _ ih =>
    exact .step cid c p n (findComment_append_of_some hf l) hp ih

theorem DepthIs.getThreadDepth_eq {comments : List Comment} {cid : Str} {d : Nat}
    (h : DepthIs comments cid d) :
    ∀ k, k ≤ 5 → getThreadDepth comments cid k = min (k + d) 5 := by
  induction h with
  | root cid c hf hp =>
    intro k hk
    rw [getThreadDepth]
    by_cases h5 : k ≥ 5
    · rw [if_pos h5]; omega
    · rw [if_neg h5]
      have hb : (findComment comments cid).bind Comment.parentId = none := by
        rw [hf]; exact hp
      rw [hb]
      show k = min (k + 0) 5
      omega
  | step cid c p n hf hp hd ih =>
    intro k hk
    rw [getThreadDepth]
    by_cases h5 : k ≥ 5
    · rw [if_pos h5]; omega
    · rw [if_neg h5]
      have hb : (findComment comments cid).bind Comment.parentId = some p := by
        rw [hf]; exact hp
      rw [hb]
      show getThreadDepth comments p (k + 1) = min (k + (n + 1)) 5
      rw [ih (k + 1) (by omega)]
      omega

theorem findComment_eq_none {comments : List Comment} {nid : Str}
    (h : ∀ c ∈ comments, c.id ≠ nid) : findComment comments nid = none := by
  unfold findComment
  rw [List.find?_eq_none]
  intro c hc
  simpa using h c hc

theorem findComment_append_fresh {comments : List Comment} {c : Comment}
    (h : findComment comments c.id = none) :
    findComment (comments ++ [c]) c.id = some c := by
  unfold findComment at h ⊢
  rw [List.find?_append, h]
  simp

/-- C1: for a reply request whose post exists and whose parent comment
exists and belongs to that post, with the parent comment at depth `d` (the
length of its parent chain): if `d ≥ 5` the route responds ValidationFailed
with the fixed message "Maximum thread depth of 5 levels reached" and the
database is unchanged — no comment row is created; if `d < 5` the route
creates the reply with `parentId = commentId`, and in the resulting
database the created comment's depth is `d + 1`. -/
theorem createReply_depth_boundary (db : DB)
    (postId commentId userId content newId : Str) (now d : Nat)
    (post : Post) (parentComment : Comment)
    (hpost : findPostById db postId = some post)
    (hpar : findComment db.comments commentId = some parentComment)
    (hmatch : parentComment.postId = postId)
    (hdepth : DepthIs db.comments commentId d)
    (hfresh : ∀ c ∈ db.comments, c.id ≠ newId) :
    (5 ≤ d →
      createReply db postId commentId userId content newId now
        = (.validationFailed maxDepthMsg, db))
    ∧ (d < 5 →
      ∃ c : Comment,
        createReply db postId commentId userId content newId now
          = (.created c, { db with comments := db.comments ++ [c] })
        ∧ c.parentId = some commentId
        ∧ DepthIs (db.comments ++ [c]) c.id (d + 1)) := by
  have hgd : getThreadDepth db.comments commentId 0 = min d 5 := by
    simpa using hdepth.getThreadDepth_eq 0 (by omega)
  constructor
  · intro hd5
    simp only [createReply, hpost, hpar]
    rw [if_neg (by simp [hmatch]), if_pos (by omega)]
  · intro hd5
    refine ⟨⟨newId, content, postId, userId, some commentId, now⟩, ?_, rfl, ?_⟩
    · simp only [createReply, hpost, hpar]
      rw [if_neg (by simp [hmatch]), if_neg (by omega)]
    · refine DepthIs.step _ ⟨newId, content, postId, userId, some commentId, now⟩
        commentId d ?_ rfl (hdepth.append _)
      exact findComment_append_fresh (findComment_eq_none hfresh)

theorem createReply_depth_boundary_witness :
    (5 ≤ 0 →
      createReply w1DB ("p1".toList) ("c1".toList) ("u1".toList) ("nice".toList)
          ("c2".toList) 2
        = (.validationFailed maxDepthMsg, w1DB))
    ∧ (0 < 5 →
      ∃ c : Comment,
        createReply w1DB ("p1".toList) ("c1".toList) ("u1".toList) ("nice".toList)
            ("c2".toList) 2
          = (.created c, { w1DB with comments := w1DB.comments ++ [c] })
        ∧ c.parentId = some ("c1".toList)
        ∧ DepthIs (w1DB.comments ++ [c]) c.id (0 + 1)) :=
  createReply_depth_boundary w1DB ("p1".toList) ("c1".toList) ("u1".toList)
    ("nice".toList) ("c2".toList) 2 0 w1Post w1Root (by decide) (by decide)
    (by decide) (DepthIs.root ("c1".toList) w1Root (by decide) (by decide))
    (by decide)

theorem sortByCreatedAt_sorted (l : List Comment) :
    (sortByCreatedAt l).Pairwise (fun a b => a.createdAt ≤ b.createdAt) :=
  List.sorted_insertionSort _ l

theorem getNestedReplies_allSorted (db : DB) (postId : Str) :
    ∀ (fuel currentDepth : Nat), 5 - currentDepth ≤ fuel → ∀ parentId,
      AllSorted (getNestedReplies db postId parentId currentDepth) := by
  intro fuel
  induction fuel with
  | zero =>
    intro currentDepth hf parentId
    rw [getNestedReplies, if_pos (by omega : currentDepth ≥ 5)]
    exact AllSorted.mk [] List.Pairwise.nil (by intro x hx; cases hx)
  | succ n ih =>
    intro currentDepth hf parentId
    by_cases h5 : currentDepth ≥ 5
    · rw [getNestedReplies, if_pos h5]
      exact AllSorted.mk [] List.Pairwise.nil (by intro x hx; cases hx)
    · rw [getNestedReplies, if_neg h5]
      refine AllSorted.mk _ ?_ ?_
      · rw [List.pairwise_map]
        exact sortByCreatedAt_sorted _
      · intro node hn
        rw [List.mem_map] at hn
        obtain ⟨r, hr, rfl⟩ := hn
        exact ih (currentDepth + 1) (by omega) r.id

/-- C7: the comment forest the read path returns lists siblings in
ascending `createdAt` order (oldest first) at every level — among the
top-level comments and among each node's replies. -/
theorem getPostComments_sorted (db : DB) (postId : Str) (tree : List CommentNode)
    (h : getPostComments db postId = Except.ok tree) : AllSorted tree := by
  unfold getPostComments at h
  cases hfp : findPostById db postId with
  | none =>
    simp only [hfp] at h
    exact Except.noConfusion h
  | some post =>
    simp only [hfp, Except.ok.injEq] at h
    subst h
    refine AllSorted.mk _ ?_ ?_
    · rw [List.pairwise_map]
      exact sortByCreatedAt_sorted _
    · intro node hn
      rw [List.mem_map] at hn
      obtain ⟨c, hc, rfl⟩ := hn
      exact getNestedReplies_allSorted db postId 5 0 (by omega) c.id

theorem getPostComments_sorted_witness : AllSorted w1Tree :=
  getPostComments_sorted w1DB ("p1".toList) w1Tree (by
    have h0 : getNestedReplies w1DB ("p1".toList) ("c1".toList) 0 = [] := by
      rw [getNestedReplies, if_neg (by omega : ¬ 0 ≥ 5)]
      rfl
    have h1 : getPostComments w1DB ("p1".toList)
        = Except.ok [⟨"c1".toList, "hi".toList, "p1".toList, "u1".toList, none, 1, 0,
            getNestedReplies w1DB ("p1".toList) ("c1".toList) 0⟩] := rfl
    rw [h1, h0]
    rfl)

/-- C2: evidence of the stale saved-listing. With the pre-save listing of
user `u1` cached (first read), a successful `POST /:id/save` (201) runs
only `invalidateListCaches` and `invalidatePostCache(slug)`; neither
matches the key `/api/posts/saved:u1:`, so the second read is served the
pre-mutation cached payload, which no longer agrees with a live
recomputation over the mutated database. -/
theorem savedListing_serves_stale_after_save :
    c2Save.1.status = 201
    ∧ c2Read2.response.body = c2Read1.response.body
    ∧ (getSavedPosts ("u1".toList) c2Save.2.1).1.body ≠ c2Read1.response.body := by
  decide

theorem mem_of_lookup_eq_some {l : List (Str × Str)} {k v : Str}
    (h : l.lookup k = some v) : (k, v) ∈ l := by
  induction l with
  | nil => cases h
  | cons x l ih =>
    obtain ⟨xk, xv⟩ := x
    rw [List.lookup_cons] at h
    split at h
    · next hbk =>
      have hk : k = xk := by simpa using hbk
      have hv : xv = v := by injection h
      subst hk
      subst hv
      exact List.mem_cons_self _ _
    · next hbk => exact List.mem_cons_of_mem _ (ih h)

theorem lookup_eq_some_of_mem_nodup {l : List (Str × Str)} {k v : Str}
    (hnd : (l.map Prod.fst).Nodup) (hm : (k, v) ∈ l) : l.lookup k = some v := by
  induction l with
  | nil => cases hm
  | cons x l ih =>
    obtain ⟨xk, xv⟩ := x
    rw [List.map_cons, List.nodup_cons] at hnd
    rw [List.lookup_cons]
    rcases List.mem_cons.mp hm with heq | hmem
    · injection heq with hk hv
      subst hk
      subst hv
      simp
    · have hne : (k == xk) = false := by
        rw [beq_eq_false_iff_ne]
        intro hkx
        apply hnd.1
        rw [← hkx]
        exact List.mem_map.mpr ⟨(k, v), hmem, rfl⟩
      simp only [hne]
      exact ih hnd.2 hmem

theorem lookup_eq_of_perm {l₁ l₂ : List (Str × Str)} (hp : l₁.Perm l₂)
    (hnd : (l₁.map Prod.fst).Nodup) (k : Str) : l₁.lookup k = l₂.lookup k := by
  cases h1 : l₁.lookup k with
  | some v =>
    have hm : (k, v) ∈ l₂ := hp.mem_iff.mp (mem_of_lookup_eq_some h1)
    have hnd2 : (l₂.map Prod.fst).Nodup := ((hp.map Prod.fst).nodup_iff).mp hnd
    exact (lookup_eq_some_of_mem_nodup hnd2 hm).symm
  | none =>
    rw [List.lookup_eq_none_iff] at h1
    symm
    rw [List.lookup_eq_none_iff]
    intro p hpm
    exact h1 p (hp.mem_iff.mpr hpm)

theorem sortedQueryKeys_perm_eq {q1 q2 : List (Str × Str)} (h : q1.Perm q2) :
    sortedQueryKeys q1 = sortedQueryKeys q2 := by
  unfold sortedQueryKeys
  exact @List.eq_of_perm_of_sorted Str (fun a b => a ≤ b) _ _ _
    ((List.perm_insertionSort _ _).trans
      ((h.map Prod.fst).trans (List.perm_insertionSort _ _).symm))
    (List.sorted_insertionSort _ _) (List.sorted_insertionSort _ _)

/-- C5: two GET requests with the same normalized path, the same effective
requester identity, and the same set of query parameters — the same
key/value pairs in any order, keys being distinct as in an Express query
object — derive the identical cache key. -/
theorem generateCacheKey_query_order_invariant (r1 r2 : AuthRequest)
    (hpath : fullPathOf r1 = fullPathOf r2)
    (hid : effUserId r1 = effUserId r2)
    (hq : r1.query.Perm r2.query)
    (hnd : (r1.query.map Prod.fst).Nodup) :
    generateCacheKey r1 = generateCacheKey r2 := by
  have hv : ∀ k, queryValue r1.query k = queryValue r2.query k := by
    intro k
    unfold queryValue
    rw [lookup_eq_of_perm hq hnd k]
  simp only [generateCacheKey]
  rw [hpath, show r1.userId.getD anonymousStr = r2.userId.getD anonymousStr from hid,
    sortedQueryKeys_perm_eq hq]
  simp only [hv]

theorem generateCacheKey_query_order_invariant_witness :
    generateCacheKey c5ReqA = generateCacheKey c5ReqB :=
  generateCacheKey_query_order_invariant c5ReqA c5ReqB (by decide) (by decide)
    (by decide) (by decide)

theorem joinColon_cons (s : Str) (ss : List Str) (h : ss ≠ []) :
    joinColon (s :: ss) = s ++ colon :: joinColon ss := by
  cases ss with
  | nil => exact absurd rfl h
  | cons a t => rfl

theorem append_colon_inj {a b x y : Str} (ha : colon ∉ a) (hb : colon ∉ b)
    (h : a ++ colon :: x = b ++ colon :: y) : a = b ∧ x = y := by
  induction a generalizing b with
  | nil =>
    cases b with
    | nil => simpa using h
    | cons d bs =>
      rw [List.nil_append, List.cons_append] at h
      injection h with h1 h2
      have hmem : colon ∈ d :: bs := by
        rw [h1]
        exact List.mem_cons_self d bs
      exact absurd hmem hb
  | cons c as ih =>
    cases b with
    | nil =>
      rw [List.nil_append, List.cons_append] at h
      injection h with h1 h2
      have hmem : colon ∈ c :: as := by
        rw [← h1]
        exact List.mem_cons_self c as
      exact absurd hmem ha
    | cons d bs =>
      rw [List.cons_append, List.cons_append] at h
      injection h with h1 h2
      obtain ⟨hab, hxy⟩ := ih (fun hm => ha (List.mem_cons_of_mem c hm))
        (fun hm => hb (List.mem_cons_of_mem d hm)) h2
      exact ⟨by rw [h1, hab], hxy⟩

theorem joinColon_inj : ∀ (l₁ l₂ : List Str), l₁ ≠ [] → l₂ ≠ [] →
    (∀ s ∈ l₁, colon ∉ s) → (∀ s ∈ l₂, colon ∉ s) →
    joinColon l₁ = joinColon l₂ → l₁ = l₂ := by
  intro l₁
  induction l₁ with
  | nil => intro l₂ h1 _ _ _ _; exact absurd rfl h1
  | cons a t ih =>
    intro l₂ _ h2 hc1 hc2 h
    cases l₂ with
    | nil => exact absurd rfl h2
    | cons b u =>
      cases t with
      | nil =>
        cases u with
        | nil =>
          have : a = b := h
          rw [this]
        | cons v us =>
          rw [joinColon_cons b (v :: us) (by simp)] at h
          have hmem : colon ∈ a := by
            rw [show joinColon [a] = a from rfl] at h
            rw [h]
            exact List.mem_append_right b (List.mem_cons_self colon _)
          exact absurd hmem (hc1 a (List.mem_cons_self a _))
      | cons w ts =>
        cases u with
        | nil =>
          rw [joinColon_cons a (w :: ts) (by simp)] at h
          have hmem : colon ∈ b := by
            rw [show joinColon [b] = b from rfl] at h
            rw [← h]
            exact List.mem_append_right a (List.mem_cons_self colon _)
          exact absurd hmem (hc2 b (List.mem_cons_self b _))
        | cons v us =>
          rw [joinColon_cons a (w :: ts) (by simp),
            joinColon_cons b (v :: us) (by simp)] at h
          obtain ⟨hab, hrest⟩ := append_colon_inj
            (hc1 a (List.mem_cons_self a _)) (hc2 b (List.mem_cons_self b _)) h
          have htail := ih (v :: us) (by simp) (by simp)
            (fun s hs => hc1 s (List.mem_cons_of_mem a hs))
            (fun s hs => hc2 s (List.mem_cons_of_mem b hs)) hrest
          rw [hab, htail]

theorem flatPairs_ne_nil {l : List (Str × Str)} (h : l ≠ []) : flatPairs l ≠ [] := by
  cases l with
  | nil => exact absurd rfl h
  | cons p ps => simp [flatPairs]

theorem mapPairs_joinColon (f : Str → Str) :
    ∀ (ks : List Str), ks ≠ [] →
      joinColon (ks.map (fun k => k ++ colon :: f k))
        = joinColon (flatPairs (ks.map (fun k => (k, f k)))) := by
  intro ks
  induction ks with
  | nil => intro h; exact absurd rfl h
  | cons k t ih =>
    intro _
    cases t with
    | nil => rfl
    | cons k2 t2 =>
      have ihh := ih (by simp)
      simp only [List.map_cons] at ihh ⊢
      simp only [flatPairs] at ihh ⊢
      rw [joinColon_cons _ _ (by simp)]
      rw [ihh]
      rw [joinColon_cons k _ (by simp), joinColon_cons
        (f k) _ (by simp)]
      rw [List.append_assoc, List.cons_append]

theorem generateCacheKey_eq_joinColon (req : AuthRequest) :
    generateCacheKey req = joinColon (keySegs req) := by
  simp only [generateCacheKey, keySegs, tailSegs, normQuery, effUserId]
  by_cases hks : sortedQueryKeys req.query = []
  · rw [hks, if_pos rfl]
    rw [List.append_assoc, List.cons_append]
    rfl
  · rw [if_neg hks]
    obtain ⟨k, ks, hcons⟩ := List.exists_cons_of_ne_nil hks
    rw [mapPairs_joinColon (queryValue req.query) (sortedQueryKeys req.query) hks]
    rw [joinColon_cons _ _ (by simp)]
    rw [joinColon_cons _ _ (flatPairs_ne_nil (by rw [hcons]; simp))]
    rw [List.append_assoc, List.cons_append]

theorem mem_flatPairs {s : Str} :
    ∀ {l : List (Str × Str)}, s ∈ flatPairs l → ∃ p ∈ l, s = p.1 ∨ s = p.2 := by
  intro l
  induction l with
  | nil => intro h; cases h
  | cons p ps ih =>
    intro h
    simp only [flatPairs] at h
    rcases List.mem_cons.mp h with h1 | h2
    · exact ⟨p, List.mem_cons_self p ps, Or.inl h1⟩
    · rcases List.mem_cons.mp h2 with h3 | h4
      · exact ⟨p, List.mem_cons_self p ps, Or.inr h3⟩
      · obtain ⟨q, hq, hor⟩ := ih h4
        exact ⟨q, List.mem_cons_of_mem p hq, hor⟩

theorem queryValue_colonFree {q : List (Str × Str)}
    (h3 : ∀ p ∈ q, colonFree p.1 ∧ colonFree p.2) (k : Str) :
    colonFree (queryValue q k) := by
  unfold queryValue
  cases hl : q.lookup k with
  | none => exact List.not_mem_nil colon
  | some v => exact (h3 (k, v) (mem_of_lookup_eq_some hl)).2

theorem keySegs_colonFree {req : AuthRequest} (h : ReqColonFree req) :
    ∀ s ∈ keySegs req, colon ∉ s := by
  obtain ⟨h1, h2, h3⟩ := h
  intro s hs
  rcases List.mem_cons.mp hs with rfl | hs2
  · exact h1
  rcases List.mem_cons.mp hs2 with rfl | hs3
  · exact h2
  unfold tailSegs at hs3
  by_cases hks : sortedQueryKeys req.query = []
  · rw [if_pos hks] at hs3
    have hse : s = ([] : Str) := by simpa using hs3
    rw [hse]
    exact List.not_mem_nil colon
  · rw [if_neg hks] at hs3
    obtain ⟨p, hp, hor⟩ := mem_flatPairs hs3
    unfold normQuery at hp
    rw [List.mem_map] at hp
    obtain ⟨kk, hkk, rfl⟩ := hp
    have hkmem : kk ∈ req.query.map Prod.fst := by
      unfold sortedQueryKeys at hkk
      exact (List.mem_insertionSort _).mp hkk
    rcases hor with rfl | rfl
    · rw [List.mem_map] at hkmem
      obtain ⟨p0, hp0, hfst⟩ := hkmem
      rw [← hfst]
      exact (h3 p0 hp0).1
    · exact queryValue_colonFree h3 kk

theorem flatPairs_inj : ∀ {l₁ l₂ : List (Str × Str)},
    flatPairs l₁ = flatPairs l₂ → l₁ = l₂ := by
  intro l₁
  induction l₁ with
  | nil =>
    intro l₂ h
    cases l₂ with
    | nil => rfl
    | cons p ps => simp [flatPairs] at h
  | cons p ps ih =>
    intro l₂ h
    cases l₂ with
    | nil => simp [flatPairs] at h
    | cons q qs =>
      obtain ⟨p1, p2⟩ := p
      obtain ⟨q1, q2⟩ := q
      simp only [flatPairs] at h
      injection h with h1 h23
      injection h23 with h2 h3
      rw [h1, h2, ih h3]

theorem normQuery_eq_of_tailSegs_eq {r1 r2 : AuthRequest}
    (h : tailSegs r1 = tailSegs r2) : normQuery r1 = normQuery r2 := by
  unfold tailSegs at h
  by_cases h1 : sortedQueryKeys r1.query = []
  · by_cases h2 : sortedQueryKeys r2.query = []
    · unfold normQuery
      rw [h1, h2]
      rfl
    · exfalso
      rw [if_pos h1, if_neg h2] at h
      obtain ⟨k, ks, hks⟩ := List.exists_cons_of_ne_nil h2
      have hn : normQuery r2 = (k, queryValue r2.query k)
          :: ks.map (fun s => (s, queryValue r2.query s)) := by
        unfold normQuery
        rw [hks, List.map_cons]
      rw [hn] at h
      simp [flatPairs] at h
  · by_cases h2 : sortedQueryKeys r2.query = []
    · exfalso
      rw [if_neg h1, if_pos h2] at h
      obtain ⟨k, ks, hks⟩ := List.exists_cons_of_ne_nil h1
      have hn : normQuery r1 = (k, queryValue r1.query k)
          :: ks.map (fun s => (s, queryValue r1.query s)) := by
        unfold normQuery
        rw [hks, List.map_cons]
      rw [hn] at h
      simp [flatPairs] at h
    · rw [if_neg h1, if_neg h2] at h
      exact flatPairs_inj h

/-- C6 (counterexample): the derived key is not injective over the
request triple: a `:` inside a parameter value is indistinguishable from
the separator, so two requests with the same path and identity but
different query parameters collide on one key. -/
theorem generateCacheKey_collision :
    generateCacheKey c6ReqA = generateCacheKey c6ReqB
    ∧ normQuery c6ReqA ≠ normQuery c6ReqB
    ∧ c6ReqA.query ≠ c6ReqB.query := by
  decide

/-- C6 (amended): the derived key is injective over requests whose
components carry no `:` separator — equal keys then force equal normalized
paths, equal effective identities, and equal normalized (sorted) query
parameters. -/
theorem generateCacheKey_injective_colonFree (r1 r2 : AuthRequest)
    (h1 : ReqColonFree r1) (h2 : ReqColonFree r2)
    (hk : generateCacheKey r1 = generateCacheKey r2) :
    fullPathOf r1 = fullPathOf r2 ∧ effUserId r1 = effUserId r2
      ∧ normQuery r1 = normQuery r2 := by
  rw [generateCacheKey_eq_joinColon, generateCacheKey_eq_joinColon] at hk
  have hsegs := joinColon_inj (keySegs r1) (keySegs r2) (by simp [keySegs])
    (by simp [keySegs]) (keySegs_colonFree h1) (keySegs_colonFree h2) hk
  unfold keySegs at hsegs
  injection hsegs with hp rest
  injection rest with hu ht
  exact ⟨hp, hu, normQuery_eq_of_tailSegs_eq ht⟩

theorem generateCacheKey_injective_colonFree_witness :
    fullPathOf c6ReqW1 = fullPathOf c6ReqW2
      ∧ effUserId c6ReqW1 = effUserId c6ReqW2
      ∧ normQuery c6ReqW1 = normQuery c6ReqW2 :=
  generateCacheKey_injective_colonFree c6ReqW1 c6ReqW2
    (by unfold ReqColonFree colonFree; decide)
    (by unfold ReqColonFree colonFree; decide) (by decide)
